import Mathlib

/-!
Shallow embedding of the recursive spatial partitioner in
src/common/route/awooter/rust/src/partition.rs, together with proofs about it.

Modelling conventions:
* Rust i32 values are modelled as unbounded Int (the grid coordinates involved
  are small; the source itself notes overflow is not expected).  Rust i32
  division (/) truncates toward zero and is modelled by Int.tdiv; the
  arithmetic right shift (>> 1) is modelled by Int.fdiv.
* Rust f32/f64 arithmetic on delay estimates and distortion is modelled over ℚ
  (the scores and bands are stated over exact arithmetic by the specification).
  The f32-to-u64 cast saturates at 0 for negative values, modelled by
  Int.toNat of Rat.floor.
* The parallel flat_map over arcs is modelled sequentially in arc order;
  rayon's collect preserves input order, and the atomic use-counters become
  state threaded through the fold.
* PipId and WireId are opaque device identifiers, modelled as Nat.
* Rust HashMap buckets are modelled as an association list; only per-key
  lookup and per-bucket order are observable in the source.
-/

/-- The quadrant tag, from the source's Segment enum. -/
inductive Segment where
  | Northeast
  | Southeast
  | Southwest
  | Northwest
deriving DecidableEq, Repr

/-- A device grid location (partition.rs uses npnr::Loc with x, y, z). -/
structure Loc where
  x : Int
  y : Int
  z : Int
deriving DecidableEq, Repr

/-- The coordinate pair used for quadrant classification. -/
structure Coord where
  x : Int
  y : Int
deriving DecidableEq, Repr

def Coord.is_north_of (self other : Coord) : Bool :=
  decide (self.x < other.x)

def Coord.is_east_of (self other : Coord) : Bool :=
  decide (self.y < other.y)

def Coord.is_south_of (self other : Coord) : Bool :=
  decide (self.x > other.x)

def Coord.is_west_of (self other : Coord) : Bool :=
  decide (self.y > other.y)

/-- Quadrant classification of a point relative to another; a point exactly on
a cut line falls on the south/west (false) side of the strict predicates. -/
def Coord.segment_from (self other : Coord) : Segment :=
  match self.is_north_of other, self.is_east_of other with
  | true, true => Segment.Northeast
  | true, false => Segment.Northwest
  | false, true => Segment.Southeast
  | false, false => Segment.Southwest

/-- From npnr::Loc to Coord: the z sub-cell index is dropped. -/
def Coord.ofLoc (l : Loc) : Coord :=
  { x := l.x, y := l.y }

/-- The device context collaborator: geometry, wires and the delay estimator
used by partition.rs (npnr::Context). -/
structure Context where
  pip_location : Nat → Loc
  pip_direction : Nat → Loc
  pip_src_wire : Nat → Nat
  pip_dst_wire : Nat → Nat
  estimate_delay : Nat → Nat → ℚ
  grid_dim_x : Int
  grid_dim_y : Int

/-- A routing request with its endpoint locations and wires (route::Arc). -/
structure Arc where
  source_loc : Loc
  sink_loc : Loc
  source_wire : Nat
  sink_wire : Nat
deriving DecidableEq, Repr

/-- Modelled from the spec: Arc::split lives in route.rs, which is not part of
the sources here.  Per the specification, split(ctx, pip) returns a head that
terminates at the pip's source wire and a tail that originates at the pip's
destination wire; geometrically the arc is divided at the pip's location. -/
def Arc.split (a : Arc) (ctx : Context) (pip : Nat) : Arc × Arc :=
  ({ source_loc := a.source_loc
     sink_loc := ctx.pip_location pip
     source_wire := a.source_wire
     sink_wire := ctx.pip_src_wire pip },
   { source_loc := ctx.pip_location pip
     sink_loc := a.sink_loc
     source_wire := ctx.pip_dst_wire pip
     sink_wire := a.sink_wire })

/-- finds the y location a line would be split at if you split it at a certain
x location; the line is extended infinitely in both directions, and the
division truncates toward zero like Rust i32 division. -/
def split_line_over_x (line : Loc × Loc) (x_location : Int) : Int :=
  if line.1.x = line.2.x then
    (line.1.y + line.2.y).tdiv 2
  else
    let x_diff := line.1.x - line.2.x
    let y_diff := line.1.y - line.2.y
    (y_diff * x_location + line.1.y * x_diff - line.1.x * y_diff).tdiv x_diff

/-- finds the x location a line would be split at if you split it at a certain
y location, by swapping the coordinates of both endpoints. -/
def split_line_over_y (line : Loc × Loc) (y_location : Int) : Int :=
  split_line_over_x
    ({ x := line.1.y, y := line.1.x, z := 0 },
     { x := line.2.y, y := line.2.x, z := 0 })
    y_location

/-- Rust i32::clamp(lo, hi). -/
def clampI (v lo hi : Int) : Int :=
  max lo (min v hi)

/-- One pip bucket: an ordered list of (PipId, use-count) pairs. -/
abbrev Bucket := List (Nat × Nat)

/-- One directional pip map: buckets keyed by grid cell, as an association
list (only per-key lookup is observable on the Rust HashMap). -/
abbrev PipMap := List ((Int × Int) × Bucket)

def PipMap.get : PipMap → (Int × Int) → Option Bucket
  | [], _ => none
  | (k', b) :: rest, k => if k' = k then some b else PipMap.get rest k

/-- HashMap::entry(k).and_modify(push (pip, 0)).or_insert(vec![(pip, 0)]). -/
def PipMap.insertPip : PipMap → (Int × Int) → Nat → PipMap
  | [], k, p => [(k, [(p, 0)])]
  | (k', b) :: rest, k, p =>
    if k' = k then (k', b ++ [(p, 0)]) :: rest
    else (k', b) :: PipMap.insertPip rest k p

/-- Overwrite the bucket stored at a key that is present (used when the pass
updates a use-count inside an existing bucket). -/
def PipMap.setB : PipMap → (Int × Int) → Bucket → PipMap
  | [], _, _ => []
  | (k', b') :: rest, k, b =>
    if k' = k then (k', b) :: rest
    else (k', b') :: PipMap.setB rest k b

/-- The four directional pip maps built at the start of each pass. -/
structure PipIndex where
  pips_n : PipMap
  pips_e : PipMap
  pips_s : PipMap
  pips_w : PipMap

/-- The keep condition on a candidate pip: on one of the two cut lines and
within the inclusive x/y bounds. -/
def pipKeep (ctx : Context) (x y xlo xhi ylo yhi : Int) (p : Nat) : Bool :=
  let loc := ctx.pip_location p
  (loc.x == x || loc.y == y) &&
    (decide (xlo ≤ loc.x) && decide (loc.x ≤ xhi)) &&
    (decide (ylo ≤ loc.y) && decide (loc.y ≤ yhi))

/-- Direction (0, 0) marks an internal pip, which is skipped. -/
def dirZero (ctx : Context) (p : Nat) : Bool :=
  (ctx.pip_direction p).x == 0 && (ctx.pip_direction p).y == 0

/-- One iteration of the pip-index build loop in partition. -/
def buildStep (ctx : Context) (x y xlo xhi ylo yhi : Int) (idx : PipIndex) (p : Nat) :
    PipIndex :=
  if pipKeep ctx x y xlo xhi ylo yhi p then
    if dirZero ctx p then idx
    else
      let loc := ctx.pip_location p
      let dir := ctx.pip_direction p
      let k := (loc.x, loc.y)
      let i1 := if dir.x < 0 then { idx with pips_n := idx.pips_n.insertPip k p } else idx
      let i2 := if dir.x > 0 then { i1 with pips_s := i1.pips_s.insertPip k p } else i1
      let i3 := if dir.y < 0 then { i2 with pips_e := i2.pips_e.insertPip k p } else i2
      if dir.y > 0 then { i3 with pips_w := i3.pips_w.insertPip k p } else i3
  else idx

/-- The pip-index build loop at the start of partition. -/
def buildPipIndex (ctx : Context) (pips : List Nat) (x y xlo xhi ylo yhi : Int) :
    PipIndex :=
  pips.foldl (buildStep ctx x y xlo xhi ylo yhi) ⟨[], [], [], []⟩

/-- The integer score used by the pip chooser: f32 arithmetic modelled over ℚ,
with the saturating f32-to-u64 cast modelled by toNat of the floor. -/
def pipScore (ctx : Context) (source_wire sink_wire : Nat) (e : Nat × Nat) : Nat :=
  let src_to_pip := ctx.estimate_delay source_wire (ctx.pip_src_wire e.1)
  let pip_to_snk := ctx.estimate_delay (ctx.pip_dst_wire e.1) sink_wire
  (Rat.floor (1000 * (src_to_pip + ((e.2 + 1 : Nat) : ℚ) * pip_to_snk))).toNat

/-- Index of the first minimal element of a list of scores; this is the
element Iterator::min_by_key returns (on ties the first element wins). -/
def firstMinIdx : List Nat → Nat
  | [] => 0
  | [_] => 0
  | a :: b :: rest =>
    if (b :: rest).getD (firstMinIdx (b :: rest)) 0 < a then
      firstMinIdx (b :: rest) + 1
    else 0

/-- The find_best_pip closure: select the bucket element minimizing pipScore
(first such element on ties), increment its use-count, and return the chosen
pip together with the updated bucket.  The Rust closure unwraps min_by_key,
so the empty bucket (which panics there) yields none. -/
def find_best_pip (ctx : Context) (b : Bucket) (source_wire sink_wire : Nat) :
    Option (Nat × Bucket) :=
  match b with
  | [] => none
  | _ :: _ =>
    let i := firstMinIdx (b.map (pipScore ctx source_wire sink_wire))
    let e := b.getD i (0, 0)
    some (e.1, b.set i (e.1, e.2 + 1))

/-- Boolean: the arc's source is (strictly) north of the partition point. -/
def arcSrcNorth (x y : Int) (a : Arc) : Bool :=
  (Coord.ofLoc a.source_loc).is_north_of ⟨x, y⟩

def arcSrcEast (x y : Int) (a : Arc) : Bool :=
  (Coord.ofLoc a.source_loc).is_east_of ⟨x, y⟩

def arcSnkNorth (x y : Int) (a : Arc) : Bool :=
  (Coord.ofLoc a.sink_loc).is_north_of ⟨x, y⟩

def arcSnkEast (x y : Int) (a : Arc) : Bool :=
  (Coord.ofLoc a.sink_loc).is_east_of ⟨x, y⟩

/-- Source and sink fall in the same quadrant (first branch of the pass). -/
def arcSameQuad (x y : Int) (a : Arc) : Bool :=
  arcSrcNorth x y a == arcSnkNorth x y a && arcSrcEast x y a == arcSnkEast x y a

/-- The endpoints differ on the north/south side only. -/
def arcCrossNS (x y : Int) (a : Arc) : Bool :=
  arcSrcNorth x y a != arcSnkNorth x y a && arcSrcEast x y a == arcSnkEast x y a

/-- The endpoints differ on the east/west side only. -/
def arcCrossEW (x y : Int) (a : Arc) : Bool :=
  arcSrcNorth x y a == arcSnkNorth x y a && arcSrcEast x y a != arcSnkEast x y a

/-- The endpoints differ on both sides (diagonal crossing). -/
def arcCrossBoth (x y : Int) (a : Arc) : Bool :=
  arcSrcNorth x y a != arcSnkNorth x y a && arcSrcEast x y a != arcSnkEast x y a

/-- The clamped crossing cell for an arc crossing only the vertical cut. -/
def vertMiddle (ctx : Context) (x : Int) (a : Arc) : Int × Int :=
  (clampI x 1 (ctx.grid_dim_x - 1),
   clampI ((a.source_loc.y + a.sink_loc.y).tdiv 2) 1 (ctx.grid_dim_y - 1))

/-- The clamped crossing cell for an arc crossing only the horizontal cut. -/
def horizMiddle (ctx : Context) (y : Int) (a : Arc) : Int × Int :=
  (clampI ((a.source_loc.x + a.sink_loc.x).tdiv 2) 1 (ctx.grid_dim_x - 1),
   clampI y 1 (ctx.grid_dim_y - 1))

/-- The clamped cell of the east/west cut for a diagonal crossing. -/
def diagMiddleH (ctx : Context) (x : Int) (a : Arc) : Int × Int :=
  (clampI x 1 (ctx.grid_dim_x - 1),
   clampI (split_line_over_x (a.source_loc, a.sink_loc) x) 1 (ctx.grid_dim_y - 1))

/-- The clamped cell of the north/south cut for a diagonal crossing. -/
def diagMiddleV (ctx : Context) (y : Int) (a : Arc) : Int × Int :=
  (clampI (split_line_over_y (a.source_loc, a.sink_loc) y) 1 (ctx.grid_dim_x - 1),
   clampI y 1 (ctx.grid_dim_y - 1))

/-- The bucket lookup toward the side a north/south crossing must travel:
pips_s when the source is north of the point, pips_n otherwise. -/
def getNS (x y : Int) (a : Arc) (idx : PipIndex) (middle : Int × Int) : Option Bucket :=
  if arcSrcNorth x y a then idx.pips_s.get middle else idx.pips_n.get middle

/-- The bucket lookup toward the side an east/west crossing must travel:
pips_w when the source is east of the point, pips_e otherwise. -/
def getEW (x y : Int) (a : Arc) (idx : PipIndex) (middle : Int × Int) : Option Bucket :=
  if arcSrcEast x y a then idx.pips_w.get middle else idx.pips_e.get middle

/-- Write back the bucket mutated by the chooser for a north/south crossing. -/
def updNS (x y : Int) (a : Arc) (idx : PipIndex) (middle : Int × Int) (b' : Bucket) :
    PipIndex :=
  if arcSrcNorth x y a then { idx with pips_s := idx.pips_s.setB middle b' }
  else { idx with pips_n := idx.pips_n.setB middle b' }

/-- Write back the bucket mutated by the chooser for an east/west crossing. -/
def updEW (x y : Int) (a : Arc) (idx : PipIndex) (middle : Int × Int) (b' : Bucket) :
    PipIndex :=
  if arcSrcEast x y a then { idx with pips_w := idx.pips_w.setB middle b' }
  else { idx with pips_e := idx.pips_e.setB middle b' }

/-- Head and tail tags for an arc crossing only the vertical cut. -/
def segsNS (x y : Int) (a : Arc) : Segment × Segment :=
  match arcSrcNorth x y a, arcSrcEast x y a with
  | true, true => (Segment.Northeast, Segment.Southeast)
  | true, false => (Segment.Northwest, Segment.Southwest)
  | false, true => (Segment.Southeast, Segment.Northeast)
  | false, false => (Segment.Southwest, Segment.Northwest)

/-- Head and tail tags for an arc crossing only the horizontal cut. -/
def segsEW (x y : Int) (a : Arc) : Segment × Segment :=
  match arcSrcNorth x y a, arcSrcEast x y a with
  | true, true => (Segment.Northeast, Segment.Northwest)
  | true, false => (Segment.Northwest, Segment.Northeast)
  | false, true => (Segment.Southeast, Segment.Southwest)
  | false, false => (Segment.Southwest, Segment.Southeast)

/-- The three sub-arcs of a diagonal crossing, cut at the two chosen pips in
the order decided by comparing the horizontal pip's east/west side with the
source's, together with their tags from the eight-row table. -/
def diagEmit (ctx : Context) (x y : Int) (a : Arc) (horiz_pip vert_pip : Nat) :
    List (Segment × Arc) :=
  let horiz_is_east := (Coord.ofLoc (ctx.pip_location horiz_pip)).is_east_of ⟨x, y⟩
  let abc : Arc × Arc × Arc :=
    if horiz_is_east == arcSrcEast x y a then
      let s1 := a.split ctx horiz_pip
      let s2 := s1.2.split ctx vert_pip
      (s1.1, s2.1, s2.2)
    else
      let s1 := a.split ctx vert_pip
      let s2 := s1.2.split ctx horiz_pip
      (s1.1, s2.1, s2.2)
  let segs : Segment × Segment × Segment :=
    match arcSrcNorth x y a, arcSrcEast x y a, horiz_is_east with
    | true, true, true => (Segment.Northeast, Segment.Southeast, Segment.Southwest)
    | true, true, false => (Segment.Northeast, Segment.Northwest, Segment.Southwest)
    | true, false, true => (Segment.Northwest, Segment.Northeast, Segment.Southeast)
    | true, false, false => (Segment.Northwest, Segment.Southwest, Segment.Southeast)
    | false, true, true => (Segment.Southeast, Segment.Northeast, Segment.Northwest)
    | false, true, false => (Segment.Southeast, Segment.Southwest, Segment.Northwest)
    | false, false, true => (Segment.Southwest, Segment.Southeast, Segment.Northeast)
    | false, false, false => (Segment.Southwest, Segment.Northwest, Segment.Northeast)
  [(segs.1, abc.1), (segs.2.1, abc.2.1), (segs.2.2, abc.2.2)]

/-- Classification and splitting of one arc inside the pass body of partition,
threading the pip index (whose use-counts the chooser mutates).  The Rust body
unwraps the bucket lookups, so a missing bucket (a panic there) yields none
through the Option binds. -/
def processArc (ctx : Context) (x y : Int) (idx : PipIndex) (a : Arc) :
    Option (List (Segment × Arc) × PipIndex) :=
  if arcSameQuad x y a then
    some ([((Coord.ofLoc a.source_loc).segment_from ⟨x, y⟩, a)], idx)
  else if arcCrossNS x y a then
    (getNS x y a idx (vertMiddle ctx x a)).bind fun b =>
      (find_best_pip ctx b a.source_wire a.sink_wire).map fun pb =>
        ([((segsNS x y a).1, (a.split ctx pb.1).1),
          ((segsNS x y a).2, (a.split ctx pb.1).2)],
          updNS x y a idx (vertMiddle ctx x a) pb.2)
  else if arcCrossEW x y a then
    (getEW x y a idx (horizMiddle ctx y a)).bind fun b =>
      (find_best_pip ctx b a.source_wire a.sink_wire).map fun pb =>
        ([((segsEW x y a).1, (a.split ctx pb.1).1),
          ((segsEW x y a).2, (a.split ctx pb.1).2)],
          updEW x y a idx (horizMiddle ctx y a) pb.2)
  else
    (getEW x y a idx (diagMiddleH ctx x a)).bind fun b1 =>
      (find_best_pip ctx b1 a.source_wire a.sink_wire).bind fun pb1 =>
        (getNS x y a (updEW x y a idx (diagMiddleH ctx x a) pb1.2)
            (diagMiddleV ctx y a)).bind fun b2 =>
          (find_best_pip ctx b2 a.source_wire a.sink_wire).map fun pb2 =>
            (diagEmit ctx x y a pb1.1 pb2.1,
              updNS x y a (updEW x y a idx (diagMiddleH ctx x a) pb1.2)
                (diagMiddleV ctx y a) pb2.2)

/-- The flat_map over all arcs, threading use-counts in arc order. -/
def partitionArcs (ctx : Context) (x y : Int) :
    PipIndex → List Arc → Option (List (Segment × Arc))
  | _, [] => some []
  | idx, a :: rest =>
    (processArc ctx x y idx a).bind fun li =>
      (partitionArcs ctx x y li.2 rest).map fun ls => li.1 ++ ls

/-- The four output lists of a pass. -/
structure Quad where
  ne : List Arc
  se : List Arc
  sw : List Arc
  nw : List Arc
deriving DecidableEq, Repr

/-- Distribution of the tagged sub-arcs into the four quadrant lists,
preserving emission order. -/
def distribute : List (Segment × Arc) → Quad
  | [] => ⟨[], [], [], []⟩
  | (s, a) :: rest =>
    let q := distribute rest
    match s with
    | Segment.Northeast => ⟨a :: q.ne, q.se, q.sw, q.nw⟩
    | Segment.Southeast => ⟨q.ne, a :: q.se, q.sw, q.nw⟩
    | Segment.Southwest => ⟨q.ne, q.se, a :: q.sw, q.nw⟩
    | Segment.Northwest => ⟨q.ne, q.se, q.sw, a :: q.nw⟩

/-- One partition pass: build the pip index, classify and split every arc,
and distribute the sub-arcs into the four quadrant lists.  none models the
pass panicking on a missing pip bucket. -/
def partition (ctx : Context) (arcs : List Arc) (pips : List Nat)
    (x y xlo xhi ylo yhi : Int) : Option Quad :=
  let idx := buildPipIndex ctx pips x y xlo xhi ylo yhi
  (partitionArcs ctx x y idx arcs).map distribute

/-- The distortion of a pass result, in percent (f64 arithmetic modelled over
ℚ; an empty total gives 100 here while the Rust NaN comparison is false, and
both fail the early-exit test). -/
def distortionQ (q : Quad) : ℚ :=
  let nets : ℚ := ((q.ne.length + q.nw.length + q.se.length + q.sw.length : Nat) : ℚ)
  100 * (|(q.ne.length : ℚ) / nets - 1/4| + |(q.se.length : ℚ) / nets - 1/4| +
    |(q.sw.length : ℚ) / nets - 1/4| + |(q.nw.length : ℚ) / nets - 1/4|)

/-- Outcome of find_partition_point: ok carries the returned point, the four
lists and the number of partition passes run; aborted models a panic inside a
pass (also counting the passes started); diverge models non-termination of the
while loop (reachable only when the initial x step is negative). -/
inductive FppOut where
  | diverge : FppOut
  | aborted : Nat → FppOut
  | ok : Int → Int → Quad → Nat → FppOut
deriving DecidableEq, Repr

/-- Number of partition passes recorded in an outcome. -/
def FppOut.passes : FppOut → Nat
  | .diverge => 0
  | .aborted n => n
  | .ok _ _ _ n => n

/-- The single unconditional pass run after the balance loop exits. -/
def fppFinal (ctx : Context) (arcs : List Arc) (pips : List Nat)
    (xlo xhi ylo yhi x y : Int) : FppOut :=
  match partition ctx arcs pips x y xlo xhi ylo yhi with
  | none => .aborted 1
  | some q => .ok x y q 1

/-- The balance-search while loop of find_partition_point.  The loop guard
tests only the x step; fuel bounds the number of iterations and is chosen
large enough for every non-negative initial step (fppLoop_fuel_bound below),
so that diverge is only returned when the initial x step is negative, where
the Rust loop indeed never reaches zero by arithmetic shifting. -/
def fppLoop (ctx : Context) (arcs : List Arc) (pips : List Nat)
    (xlo xhi ylo yhi : Int) : Nat → Int → Int → Int → Int → FppOut
  | 0, x, y, x_diff, _ =>
    if x_diff = 0 then fppFinal ctx arcs pips xlo xhi ylo yhi x y
    else .diverge
  | fuel + 1, x, y, x_diff, y_diff =>
    if x_diff = 0 then fppFinal ctx arcs pips xlo xhi ylo yhi x y
    else
      match partition ctx arcs pips x y xlo xhi ylo yhi with
      | none => .aborted 1
      | some q =>
        if distortionQ q ≤ 5 then .ok x y q 1
        else
          let north := q.ne.length + q.nw.length
          let south := q.se.length + q.sw.length
          let east := q.ne.length + q.se.length
          let west := q.nw.length + q.sw.length
          let x' := x + (if north < south then x_diff
            else if south < north then -x_diff else 0)
          let y' := y + (if east < west then y_diff
            else if west < east then -y_diff else 0)
          match fppLoop ctx arcs pips xlo xhi ylo yhi fuel x' y'
              (x_diff.fdiv 2) (y_diff.fdiv 2) with
          | .diverge => .diverge
          | .aborted n => .aborted (n + 1)
          | .ok a b qq n => .ok a b qq (n + 1)

/-- The balance search: centre start, quarter-span steps, halving loop, and a
final unconditional pass. -/
def find_partition_point (ctx : Context) (arcs : List Arc) (pips : List Nat)
    (x_start x_finish y_start y_finish : Int) : FppOut :=
  let x := (x_finish - x_start).tdiv 2 + x_start
  let y := (y_finish - y_start).tdiv 2 + y_start
  let x_diff := (x_finish - x_start).tdiv 4
  let y_diff := (y_finish - y_start).tdiv 4
  fppLoop ctx arcs pips x_start x_finish y_start y_finish
    (x_diff.toNat + 1) x y x_diff y_diff

/-- The five log annotations produced for a per-quadrant deviation. -/
inductive DistLabel where
  | wayTooMany
  | tooMany
  | tooFew
  | wayTooFew
  | balanced
deriving DecidableEq, Repr

/-- The dist_str closure of partition, with its exact branch order: the
"(way too few nets)" branch is tested after the "(too few nets)" branch. -/
def dist_str (dist : ℚ) : DistLabel :=
  if dist > 20/100 then DistLabel.wayTooMany
  else if dist > 5/100 then DistLabel.tooMany
  else if dist < -(5/100) then DistLabel.tooFew
  else if dist < -(20/100) then DistLabel.wayTooFew
  else DistLabel.balanced

/-- A small concrete device used to exercise the definitions: a 16 x 16 grid
with a south-bound pip at (8, 2), a west-bound pip at (2, 8) and a
south-west-bound pip at (8, 8). -/
def ctxW : Context where
  pip_location := fun p =>
    if p = 0 then ⟨8, 2, 0⟩ else if p = 1 then ⟨2, 8, 0⟩
    else if p = 2 then ⟨8, 8, 0⟩ else ⟨0, 0, 0⟩
  pip_direction := fun p =>
    if p = 0 then ⟨1, 0, 0⟩ else if p = 1 then ⟨0, 1, 0⟩
    else if p = 2 then ⟨1, 1, 0⟩ else ⟨0, 0, 0⟩
  pip_src_wire := fun p => 100 + p
  pip_dst_wire := fun p => 200 + p
  estimate_delay := fun _ _ => 1
  grid_dim_x := 16
  grid_dim_y := 16

/-- An arc whose endpoints share a quadrant relative to (8, 8). -/
def arcSameW : Arc := ⟨⟨2, 2, 0⟩, ⟨3, 3, 0⟩, 10, 11⟩

/-- An arc crossing only the vertical cut at x = 8. -/
def arcVertW : Arc := ⟨⟨2, 2, 0⟩, ⟨14, 2, 0⟩, 12, 13⟩

/-- An arc crossing only the horizontal cut at y = 8. -/
def arcHorizW : Arc := ⟨⟨2, 2, 0⟩, ⟨2, 14, 0⟩, 14, 15⟩

/-- An arc crossing both cuts. -/
def arcDiagW : Arc := ⟨⟨2, 2, 0⟩, ⟨14, 14, 0⟩, 16, 17⟩

/-- One arc of every classification. -/
def arcsMixedW : List Arc := [arcSameW, arcVertW, arcHorizW, arcDiagW]

/-- The pip list of the concrete device. -/
def pipsW : List Nat := [0, 1, 2]

/-- Four arcs, one per quadrant relative to (7, 7), none crossing a cut. -/
def arcsQuadW : List Arc :=
  [⟨⟨2, 2, 0⟩, ⟨3, 3, 0⟩, 20, 21⟩,
   ⟨⟨12, 2, 0⟩, ⟨13, 3, 0⟩, 22, 23⟩,
   ⟨⟨12, 12, 0⟩, ⟨13, 13, 0⟩, 24, 25⟩,
   ⟨⟨2, 12, 0⟩, ⟨3, 13, 0⟩, 26, 27⟩]

/-- The quadrant lists produced for arcsQuadW at (7, 7). -/
def quadQW : Quad :=
  ⟨[⟨⟨2, 2, 0⟩, ⟨3, 3, 0⟩, 20, 21⟩],
   [⟨⟨12, 2, 0⟩, ⟨13, 3, 0⟩, 22, 23⟩],
   [⟨⟨12, 12, 0⟩, ⟨13, 13, 0⟩, 24, 25⟩],
   [⟨⟨2, 12, 0⟩, ⟨3, 13, 0⟩, 26, 27⟩]⟩

/-- Number of sub-arcs the pass emits for one arc: 1 if unsplit, 2 for a
single-cut crossing, 3 for a diagonal crossing. -/
def emitCount (x y : Int) (a : Arc) : Nat :=
  if arcSameQuad x y a then 1
  else if arcCrossNS x y a then 2
  else if arcCrossEW x y a then 2
  else 3

/-- The grid cell of a pip. -/
def locKey (ctx : Context) (p : Nat) : Int × Int :=
  ((ctx.pip_location p).x, (ctx.pip_location p).y)

/-- A pip makes it into pips_n: kept, not internal, and D.x < 0. -/
def pipSelN (ctx : Context) (x y xlo xhi ylo yhi : Int) (p : Nat) : Bool :=
  pipKeep ctx x y xlo xhi ylo yhi p && !dirZero ctx p &&
    decide ((ctx.pip_direction p).x < 0)

/-- A pip makes it into pips_s: kept, not internal, and D.x > 0. -/
def pipSelS (ctx : Context) (x y xlo xhi ylo yhi : Int) (p : Nat) : Bool :=
  pipKeep ctx x y xlo xhi ylo yhi p && !dirZero ctx p &&
    decide ((ctx.pip_direction p).x > 0)

/-- A pip makes it into pips_e: kept, not internal, and D.y < 0. -/
def pipSelE (ctx : Context) (x y xlo xhi ylo yhi : Int) (p : Nat) : Bool :=
  pipKeep ctx x y xlo xhi ylo yhi p && !dirZero ctx p &&
    decide ((ctx.pip_direction p).y < 0)

/-- A pip makes it into pips_w: kept, not internal, and D.y > 0. -/
def pipSelW (ctx : Context) (x y xlo xhi ylo yhi : Int) (p : Nat) : Bool :=
  pipKeep ctx x y xlo xhi ylo yhi p && !dirZero ctx p &&
    decide ((ctx.pip_direction p).y > 0)

/-- Bucket contents as described by the specification: the selected pips in
input-list order, each with use-count 0, and no bucket when the selection at
that cell is empty. -/
def specPipBucket (ctx : Context) (sel : Nat → Bool) (pips : List Nat)
    (k : Int × Int) : Option Bucket :=
  let l := (pips.filter fun p => sel p && decide (locKey ctx p = k)).map fun p => (p, 0)
  if l.isEmpty then none else some l

/-- Combination of an accumulated bucket with later insertions (used to state
the build-loop invariant). -/
def combineB : Option Bucket → List (Nat × Nat) → Option Bucket
  | none, [] => none
  | none, l => some l
  | some b, l => some (b ++ l)

/-- Every bucket stored in a map is non-empty. -/
def MapNonempty (m : PipMap) : Prop :=
  ∀ k b, m.get k = some b → b ≠ []

/-- Every bucket stored in the index is non-empty. -/
def IdxNonempty (idx : PipIndex) : Prop :=
  MapNonempty idx.pips_n ∧ MapNonempty idx.pips_e ∧
    MapNonempty idx.pips_s ∧ MapNonempty idx.pips_w

/-- Two maps hold buckets at exactly the same keys. -/
def MapKeysEq (m m' : PipMap) : Prop :=
  ∀ k, (PipMap.get m k).isSome = (PipMap.get m' k).isSome

/-- Two indices hold buckets at exactly the same keys. -/
def IdxKeysEq (i i' : PipIndex) : Prop :=
  MapKeysEq i.pips_n i'.pips_n ∧ MapKeysEq i.pips_e i'.pips_e ∧
    MapKeysEq i.pips_s i'.pips_s ∧ MapKeysEq i.pips_w i'.pips_w

/-- Every bucket the pass would look up for this arc is present in the index
(the pass panics exactly on a missing lookup). -/
def arcBucketsPresent (ctx : Context) (x y : Int) (idx : PipIndex) (a : Arc) : Bool :=
  if arcSameQuad x y a then true
  else if arcCrossNS x y a then
    (getNS x y a idx (vertMiddle ctx x a)).isSome
  else if arcCrossEW x y a then
    (getEW x y a idx (horizMiddle ctx y a)).isSome
  else
    (getEW x y a idx (diagMiddleH ctx x a)).isSome &&
      (getNS x y a idx (diagMiddleV ctx y a)).isSome

/-- Claim C9: for endpoints with equal x, split_line_over_x returns the
truncating integer average of the two y coordinates, whatever the cut
position is. -/
theorem split_line_over_x_degenerate (A B : Loc) (x0 : Int) (h : A.x = B.x) :
    split_line_over_x (A, B) x0 = (A.y + B.y).tdiv 2 := by
  simp [split_line_over_x, h]

/-- Claim C9 witness: for source (5, 2) and sink (5, 14) at cut 5 the result
is (2 + 14) / 2 = 8. -/
theorem split_line_over_x_degenerate_witness :
    split_line_over_x (⟨5, 2, 0⟩, ⟨5, 14, 0⟩) 5 = 8 :=
  (split_line_over_x_degenerate ⟨5, 2, 0⟩ ⟨5, 14, 0⟩ 5 rfl).trans (by decide)

/-- Claim C8: at deviation -0.3 the annotation is the yellow "(too few
nets)", not the red "(way too few nets)" the specification describes: the
branch testing dist < -0.20 sits after the branch testing dist < -0.05 in
dist_str, so it can never be reached and the bands are not symmetric. -/
theorem dist_str_dead_branch :
    dist_str (-(3 : ℚ)/10) = DistLabel.tooFew ∧
      dist_str (-(3 : ℚ)/10) ≠ DistLabel.wayTooFew := by
  have h : dist_str (-(3 : ℚ)/10) = DistLabel.tooFew := by norm_num [dist_str]
  exact ⟨h, by rw [h]; intro hc; cases hc⟩

/-- Claim C1 counterexample: a single arc from (2, 2) to (14, 2) crossing the
x = 8 cut is split at the south-bound pip located at (8, 2); the head is
placed in the northeast list, but its sink Coord (8, 2) lies exactly on the
cut line, which segment_from classifies as Southeast, not Northeast. -/
theorem partition_containment_cex :
    (partition ctxW [arcVertW] [0] 8 8 0 15 0 15).isSome = true ∧
    ∃ a ∈ ((partition ctxW [arcVertW] [0] 8 8 0 15 0 15).getD ⟨[], [], [], []⟩).ne,
      (Coord.ofLoc a.sink_loc).segment_from ⟨8, 8⟩ ≠ Segment.Northeast := by
  decide
theorem firstMinIdx_lt : ∀ (l : List Nat), l ≠ [] → firstMinIdx l < l.length
  | [], h => absurd rfl h
  | [_], _ => by simp [firstMinIdx]
  | a :: b :: rest, _ => by
    have ih := firstMinIdx_lt (b :: rest) (List.cons_ne_nil _ _)
    simp only [firstMinIdx]
    split
    · simpa using Nat.succ_lt_succ ih
    · simp

theorem firstMinIdx_le_all :
    ∀ (l : List Nat) (j : Nat), j < l.length →
      l.getD (firstMinIdx l) 0 ≤ l.getD j 0
  | [], j, hj => by simp at hj
  | [a], j, hj => by
    have : j = 0 := Nat.lt_one_iff.mp (by simpa using hj)
    subst this
    simp [firstMinIdx]
  | a :: b :: rest, j, hj => by
    simp only [firstMinIdx]
    by_cases h : (b :: rest).getD (firstMinIdx (b :: rest)) 0 < a
    · rw [if_pos h]
      cases j with
      | zero => simpa using le_of_lt h
      | succ j' =>
        have := firstMinIdx_le_all (b :: rest) j' (by simpa using hj)
        simpa using this
    · rw [if_neg h]
      cases j with
      | zero => simp
      | succ j' =>
        have hm := firstMinIdx_le_all (b :: rest) j' (by simpa using hj)
        have ha : a ≤ (b :: rest).getD (firstMinIdx (b :: rest)) 0 := Nat.not_lt.mp h
        simpa using le_trans ha hm

theorem firstMinIdx_first :
    ∀ (l : List Nat) (j : Nat), j < firstMinIdx l →
      l.getD (firstMinIdx l) 0 < l.getD j 0
  | [], j, hj => by simp [firstMinIdx] at hj
  | [_], j, hj => by simp [firstMinIdx] at hj
  | a :: b :: rest, j, hj => by
    simp only [firstMinIdx] at hj ⊢
    by_cases h : (b :: rest).getD (firstMinIdx (b :: rest)) 0 < a
    · rw [if_pos h] at hj ⊢
      cases j with
      | zero => simpa using h
      | succ j' =>
        have := firstMinIdx_first (b :: rest) j' (Nat.lt_of_succ_lt_succ hj)
        simpa using this
    · rw [if_neg h] at hj
      exact absurd hj (Nat.not_lt_zero j)

theorem getD_map_pair (f : Nat × Nat → Nat) :
    ∀ (b : Bucket) (j : Nat), j < b.length →
      (b.map f).getD j 0 = f (b.getD j (0, 0))
  | [], j, hj => by simp at hj
  | e :: rest, 0, _ => by simp
  | e :: rest, j + 1, hj => by
    have := getD_map_pair f rest j (by simpa using hj)
    simpa using this

/-- Claim C2: on a non-empty bucket, find_best_pip selects an element whose
score 1000 * (delay(source, pip src) + (uses + 1) * delay(pip dst, sink)),
truncated to an integer, is minimal, and on ties the element earliest in
bucket order; exactly that element's use-count is incremented by 1 in the
returned bucket. -/
theorem find_best_pip_spec (ctx : Context) (b : Bucket) (source_wire sink_wire : Nat)
    (h : b ≠ []) :
    ∃ i, ∃ hi : i < b.length,
      find_best_pip ctx b source_wire sink_wire =
        some ((b.getD i (0, 0)).1,
          b.set i ((b.getD i (0, 0)).1, (b.getD i (0, 0)).2 + 1)) ∧
      (∀ j, j < b.length →
        pipScore ctx source_wire sink_wire (b.getD i (0, 0)) ≤
          pipScore ctx source_wire sink_wire (b.getD j (0, 0))) ∧
      (∀ j, j < i →
        pipScore ctx source_wire sink_wire (b.getD i (0, 0)) <
          pipScore ctx source_wire sink_wire (b.getD j (0, 0))) := by
  obtain ⟨e0, rest, rfl⟩ := List.exists_cons_of_ne_nil h
  have hmaplen : ((e0 :: rest).map (pipScore ctx source_wire sink_wire)).length =
      (e0 :: rest).length := List.length_map _ _
  have hi : firstMinIdx ((e0 :: rest).map (pipScore ctx source_wire sink_wire)) <
      (e0 :: rest).length := by
    rw [← hmaplen]
    exact firstMinIdx_lt _ (by simp)
  refine ⟨_, hi, rfl, ?_, ?_⟩
  · intro j hj
    have := firstMinIdx_le_all ((e0 :: rest).map (pipScore ctx source_wire sink_wire)) j
      (by rw [hmaplen]; exact hj)
    rwa [getD_map_pair _ _ _ hi, getD_map_pair _ _ _ hj] at this
  · intro j hj
    have hjlen : j < (e0 :: rest).length := lt_trans hj hi
    have := firstMinIdx_first ((e0 :: rest).map (pipScore ctx source_wire sink_wire)) j hj
    rwa [getD_map_pair _ _ _ hi, getD_map_pair _ _ _ hjlen] at this

/-- Claim C2 witness: the chooser applied to a concrete two-element bucket of
the concrete device. -/
theorem find_best_pip_spec_witness :
    ∃ i, ∃ hi : i < ([(5, 0), (7, 0)] : Bucket).length,
      find_best_pip ctxW [(5, 0), (7, 0)] 1 2 =
        some ((([(5, 0), (7, 0)] : Bucket).getD i (0, 0)).1,
          ([(5, 0), (7, 0)] : Bucket).set i
            ((([(5, 0), (7, 0)] : Bucket).getD i (0, 0)).1,
              (([(5, 0), (7, 0)] : Bucket).getD i (0, 0)).2 + 1)) ∧
      (∀ j, j < ([(5, 0), (7, 0)] : Bucket).length →
        pipScore ctxW 1 2 (([(5, 0), (7, 0)] : Bucket).getD i (0, 0)) ≤
          pipScore ctxW 1 2 (([(5, 0), (7, 0)] : Bucket).getD j (0, 0))) ∧
      (∀ j, j < i →
        pipScore ctxW 1 2 (([(5, 0), (7, 0)] : Bucket).getD i (0, 0)) <
          pipScore ctxW 1 2 (([(5, 0), (7, 0)] : Bucket).getD j (0, 0))) :=
  find_best_pip_spec ctxW [(5, 0), (7, 0)] 1 2 (by decide)

theorem distribute_length : ∀ l : List (Segment × Arc),
    (distribute l).ne.length + (distribute l).se.length + (distribute l).sw.length +
      (distribute l).nw.length = l.length
  | [] => rfl
  | (s, a) :: rest => by
    have ih := distribute_length rest
    cases s <;> simp [distribute] <;> omega

theorem processArc_some_length (ctx : Context) (x y : Int) (idx : PipIndex) (a : Arc)
    (l : List (Segment × Arc)) (idx' : PipIndex)
    (h : processArc ctx x y idx a = some (l, idx')) :
    l.length = emitCount x y a := by
  unfold processArc at h
  by_cases h1 : arcSameQuad x y a = true
  · rw [if_pos h1] at h
    simp only [Option.some.injEq, Prod.mk.injEq] at h
    obtain ⟨hl, -⟩ := h
    subst hl
    simp [emitCount, h1]
  · rw [if_neg h1] at h
    by_cases h2 : arcCrossNS x y a = true
    · rw [if_pos h2, Option.bind_eq_some] at h
      obtain ⟨b, -, h⟩ := h
      rw [Option.map_eq_some'] at h
      obtain ⟨pb, -, h⟩ := h
      simp only [Prod.mk.injEq] at h
      obtain ⟨hl, -⟩ := h
      subst hl
      simp [emitCount, h1, h2]
    · rw [if_neg h2] at h
      by_cases h3 : arcCrossEW x y a = true
      · rw [if_pos h3, Option.bind_eq_some] at h
        obtain ⟨b, -, h⟩ := h
        rw [Option.map_eq_some'] at h
        obtain ⟨pb, -, h⟩ := h
        simp only [Prod.mk.injEq] at h
        obtain ⟨hl, -⟩ := h
        subst hl
        simp [emitCount, h1, h2, h3]
      · rw [if_neg h3, Option.bind_eq_some] at h
        obtain ⟨b1, -, h⟩ := h
        rw [Option.bind_eq_some] at h
        obtain ⟨pb1, -, h⟩ := h
        rw [Option.bind_eq_some] at h
        obtain ⟨b2, -, h⟩ := h
        rw [Option.map_eq_some'] at h
        obtain ⟨pb2, -, h⟩ := h
        simp only [Prod.mk.injEq] at h
        obtain ⟨hl, -⟩ := h
        subst hl
        simp [emitCount, h1, h2, h3, diagEmit]

theorem partitionArcs_some_length (ctx : Context) (x y : Int) :
    ∀ (arcs : List Arc) (idx : PipIndex) (ls : List (Segment × Arc)),
      partitionArcs ctx x y idx arcs = some ls →
      ls.length = (arcs.map (emitCount x y)).sum
  | [], idx, ls, h => by
    simp only [partitionArcs, Option.some.injEq] at h
    subst h
    simp
  | a :: rest, idx, ls, h => by
    unfold partitionArcs at h
    rw [Option.bind_eq_some] at h
    obtain ⟨li, hp, h⟩ := h
    rw [Option.map_eq_some'] at h
    obtain ⟨ls', hrest, h⟩ := h
    subst h
    have h1 := processArc_some_length ctx x y idx a li.1 li.2 hp
    have h2 := partitionArcs_some_length ctx x y rest li.2 ls' hrest
    simp [h1, h2]

theorem emitCount_sum (x y : Int) : ∀ arcs : List Arc,
    (arcs.map (emitCount x y)).sum =
      arcs.length + (arcs.filter (arcCrossNS x y)).length +
        (arcs.filter (arcCrossEW x y)).length +
        2 * (arcs.filter (arcCrossBoth x y)).length
  | [] => rfl
  | a :: rest => by
    have ih := emitCount_sum x y rest
    by_cases hn : arcSrcNorth x y a = arcSnkNorth x y a <;>
      by_cases he : arcSrcEast x y a = arcSnkEast x y a <;>
      simp [emitCount, arcSameQuad, arcCrossNS, arcCrossEW, arcCrossBoth, hn, he,
        List.filter_cons, ih, bne] <;>
      omega

/-- Claim C3: a pass that returns normally emits exactly one sub-arc per
same-quadrant arc, two per single-cut crossing and three per diagonal
crossing, so the four list lengths sum to the input count plus the number of
north/south-only crossings, plus the east/west-only crossings, plus twice the
diagonal crossings. -/
theorem partition_coverage (ctx : Context) (arcs : List Arc) (pips : List Nat)
    (x y xlo xhi ylo yhi : Int)
    (h : (partition ctx arcs pips x y xlo xhi ylo yhi).isSome = true) :
    ((partition ctx arcs pips x y xlo xhi ylo yhi).getD ⟨[], [], [], []⟩).ne.length +
      ((partition ctx arcs pips x y xlo xhi ylo yhi).getD ⟨[], [], [], []⟩).se.length +
      ((partition ctx arcs pips x y xlo xhi ylo yhi).getD ⟨[], [], [], []⟩).sw.length +
      ((partition ctx arcs pips x y xlo xhi ylo yhi).getD ⟨[], [], [], []⟩).nw.length =
      arcs.length + (arcs.filter (arcCrossNS x y)).length +
        (arcs.filter (arcCrossEW x y)).length +
        2 * (arcs.filter (arcCrossBoth x y)).length := by
  simp only [partition] at h ⊢
  cases hls : partitionArcs ctx x y (buildPipIndex ctx pips x y xlo xhi ylo yhi) arcs with
  | none => rw [hls] at h; simp at h
  | some ls =>
    simp only [hls, Option.map_some', Option.getD_some]
    rw [← emitCount_sum x y arcs, ← partitionArcs_some_length ctx x y arcs _ ls hls]
    exact distribute_length ls

/-- Claim C3 witness: the mixed four-arc scenario on the concrete device
yields 4 + 1 + 1 + 2 = 8 sub-arcs. -/
theorem partition_coverage_witness :
    ((partition ctxW arcsMixedW pipsW 8 8 0 15 0 15).getD ⟨[], [], [], []⟩).ne.length +
      ((partition ctxW arcsMixedW pipsW 8 8 0 15 0 15).getD ⟨[], [], [], []⟩).se.length +
      ((partition ctxW arcsMixedW pipsW 8 8 0 15 0 15).getD ⟨[], [], [], []⟩).sw.length +
      ((partition ctxW arcsMixedW pipsW 8 8 0 15 0 15).getD ⟨[], [], [], []⟩).nw.length =
      arcsMixedW.length + (arcsMixedW.filter (arcCrossNS 8 8)).length +
        (arcsMixedW.filter (arcCrossEW 8 8)).length +
        2 * (arcsMixedW.filter (arcCrossBoth 8 8)).length :=
  partition_coverage ctxW arcsMixedW pipsW 8 8 0 15 0 15 (by decide)

theorem mem_distribute_ne : ∀ (l : List (Segment × Arc)) (a : Arc),
    a ∈ (distribute l).ne ↔ (Segment.Northeast, a) ∈ l
  | [], a => by simp [distribute]
  | (s, b) :: rest, a => by
    have ih := mem_distribute_ne rest a
    cases s <;> simp [distribute, ih]

theorem mem_distribute_se : ∀ (l : List (Segment × Arc)) (a : Arc),
    a ∈ (distribute l).se ↔ (Segment.Southeast, a) ∈ l
  | [], a => by simp [distribute]
  | (s, b) :: rest, a => by
    have ih := mem_distribute_se rest a
    cases s <;> simp [distribute, ih]

theorem mem_distribute_sw : ∀ (l : List (Segment × Arc)) (a : Arc),
    a ∈ (distribute l).sw ↔ (Segment.Southwest, a) ∈ l
  | [], a => by simp [distribute]
  | (s, b) :: rest, a => by
    have ih := mem_distribute_sw rest a
    cases s <;> simp [distribute, ih]

theorem mem_distribute_nw : ∀ (l : List (Segment × Arc)) (a : Arc),
    a ∈ (distribute l).nw ↔ (Segment.Northwest, a) ∈ l
  | [], a => by simp [distribute]
  | (s, b) :: rest, a => by
    have ih := mem_distribute_nw rest a
    cases s <;> simp [distribute, ih]

theorem processArc_sameQuad (ctx : Context) (x y : Int) (idx : PipIndex) (a : Arc)
    (h : arcSameQuad x y a = true) :
    processArc ctx x y idx a =
      some ([((Coord.ofLoc a.source_loc).segment_from ⟨x, y⟩, a)], idx) := by
  unfold processArc
  rw [if_pos h]

theorem partitionArcs_allSame (ctx : Context) (x y : Int) :
    ∀ (arcs : List Arc), (∀ a ∈ arcs, arcSameQuad x y a = true) → ∀ idx : PipIndex,
      partitionArcs ctx x y idx arcs =
        some (arcs.map fun a => ((Coord.ofLoc a.source_loc).segment_from ⟨x, y⟩, a))
  | [], _, idx => rfl
  | a :: rest, h, idx => by
    have ha := h a (List.mem_cons_self a rest)
    have ih := partitionArcs_allSame ctx x y rest
      (fun b hb => h b (List.mem_cons_of_mem a hb)) idx
    unfold partitionArcs
    rw [processArc_sameQuad ctx x y idx a ha]
    simp [ih]

theorem sameQuad_snk_segment (x y : Int) (a : Arc) (h : arcSameQuad x y a = true) :
    (Coord.ofLoc a.sink_loc).segment_from ⟨x, y⟩ =
      (Coord.ofLoc a.source_loc).segment_from ⟨x, y⟩ := by
  unfold arcSameQuad at h
  rw [Bool.and_eq_true, beq_iff_eq, beq_iff_eq] at h
  obtain ⟨hn, he⟩ := h
  unfold arcSrcNorth arcSnkNorth at hn
  unfold arcSrcEast arcSnkEast at he
  unfold Coord.segment_from
  rw [hn, he]

/-- Claim C1 (amended): containment holds for passes whose arcs do not cross
a cut line: when every input arc's source and sink lie in the same quadrant,
every emitted sub-arc's source and sink Coords lie in the tagged quadrant per
segment_from.  As stated, the claim fails for crossing arcs (see the
counterexample): the sub-arc endpoint at the chosen pip lies exactly on a cut
line, which segment_from assigns to the south/west side, outside the tagged
quadrant of the north/east-side sub-arc. -/
theorem partition_containment_sameQuad (ctx : Context) (arcs : List Arc) (pips : List Nat)
    (x y xlo xhi ylo yhi : Int)
    (hsq : ∀ a ∈ arcs, arcSameQuad x y a = true) :
    (partition ctx arcs pips x y xlo xhi ylo yhi).isSome = true ∧
    (∀ a ∈ ((partition ctx arcs pips x y xlo xhi ylo yhi).getD ⟨[], [], [], []⟩).ne,
      (Coord.ofLoc a.source_loc).segment_from ⟨x, y⟩ = Segment.Northeast ∧
      (Coord.ofLoc a.sink_loc).segment_from ⟨x, y⟩ = Segment.Northeast) ∧
    (∀ a ∈ ((partition ctx arcs pips x y xlo xhi ylo yhi).getD ⟨[], [], [], []⟩).se,
      (Coord.ofLoc a.source_loc).segment_from ⟨x, y⟩ = Segment.Southeast ∧
      (Coord.ofLoc a.sink_loc).segment_from ⟨x, y⟩ = Segment.Southeast) ∧
    (∀ a ∈ ((partition ctx arcs pips x y xlo xhi ylo yhi).getD ⟨[], [], [], []⟩).sw,
      (Coord.ofLoc a.source_loc).segment_from ⟨x, y⟩ = Segment.Southwest ∧
      (Coord.ofLoc a.sink_loc).segment_from ⟨x, y⟩ = Segment.Southwest) ∧
    (∀ a ∈ ((partition ctx arcs pips x y xlo xhi ylo yhi).getD ⟨[], [], [], []⟩).nw,
      (Coord.ofLoc a.source_loc).segment_from ⟨x, y⟩ = Segment.Northwest ∧
      (Coord.ofLoc a.sink_loc).segment_from ⟨x, y⟩ = Segment.Northwest) := by
  have hpa := partitionArcs_allSame ctx x y arcs hsq
    (buildPipIndex ctx pips x y xlo xhi ylo yhi)
  simp only [partition, hpa, Option.map_some', Option.getD_some, Option.isSome_some]
  refine ⟨trivial, ?_, ?_, ?_, ?_⟩ <;> intro a ha
  · rw [mem_distribute_ne, List.mem_map] at ha
    obtain ⟨b, hb, hEq⟩ := ha
    rw [Prod.mk.injEq] at hEq
    obtain ⟨hseg, rfl⟩ := hEq
    exact ⟨hseg, (sameQuad_snk_segment x y b (hsq b hb)).trans hseg⟩
  · rw [mem_distribute_se, List.mem_map] at ha
    obtain ⟨b, hb, hEq⟩ := ha
    rw [Prod.mk.injEq] at hEq
    obtain ⟨hseg, rfl⟩ := hEq
    exact ⟨hseg, (sameQuad_snk_segment x y b (hsq b hb)).trans hseg⟩
  · rw [mem_distribute_sw, List.mem_map] at ha
    obtain ⟨b, hb, hEq⟩ := ha
    rw [Prod.mk.injEq] at hEq
    obtain ⟨hseg, rfl⟩ := hEq
    exact ⟨hseg, (sameQuad_snk_segment x y b (hsq b hb)).trans hseg⟩
  · rw [mem_distribute_nw, List.mem_map] at ha
    obtain ⟨b, hb, hEq⟩ := ha
    rw [Prod.mk.injEq] at hEq
    obtain ⟨hseg, rfl⟩ := hEq
    exact ⟨hseg, (sameQuad_snk_segment x y b (hsq b hb)).trans hseg⟩

/-- Claim C1 (amended) witness: four non-crossing arcs, one per quadrant of
the concrete device, partitioned at (7, 7). -/
theorem partition_containment_sameQuad_witness :
    (partition ctxW arcsQuadW [] 7 7 0 15 0 15).isSome = true ∧
    (∀ a ∈ ((partition ctxW arcsQuadW [] 7 7 0 15 0 15).getD ⟨[], [], [], []⟩).ne,
      (Coord.ofLoc a.source_loc).segment_from ⟨7, 7⟩ = Segment.Northeast ∧
      (Coord.ofLoc a.sink_loc).segment_from ⟨7, 7⟩ = Segment.Northeast) ∧
    (∀ a ∈ ((partition ctxW arcsQuadW [] 7 7 0 15 0 15).getD ⟨[], [], [], []⟩).se,
      (Coord.ofLoc a.source_loc).segment_from ⟨7, 7⟩ = Segment.Southeast ∧
      (Coord.ofLoc a.sink_loc).segment_from ⟨7, 7⟩ = Segment.Southeast) ∧
    (∀ a ∈ ((partition ctxW arcsQuadW [] 7 7 0 15 0 15).getD ⟨[], [], [], []⟩).sw,
      (Coord.ofLoc a.source_loc).segment_from ⟨7, 7⟩ = Segment.Southwest ∧
      (Coord.ofLoc a.sink_loc).segment_from ⟨7, 7⟩ = Segment.Southwest) ∧
    (∀ a ∈ ((partition ctxW arcsQuadW [] 7 7 0 15 0 15).getD ⟨[], [], [], []⟩).nw,
      (Coord.ofLoc a.source_loc).segment_from ⟨7, 7⟩ = Segment.Northwest ∧
      (Coord.ofLoc a.sink_loc).segment_from ⟨7, 7⟩ = Segment.Northwest) :=
  partition_containment_sameQuad ctxW arcsQuadW [] 7 7 0 15 0 15 (by decide)

theorem insertPip_get_self : ∀ (m : PipMap) (k : Int × Int) (p : Nat),
    (m.insertPip k p).get k = some (((m.get k).getD []) ++ [(p, 0)])
  | [], k, p => by simp [PipMap.insertPip, PipMap.get]
  | (k0, b) :: rest, k, p => by
    by_cases h : k0 = k
    · subst h
      simp [PipMap.insertPip, PipMap.get]
    · have ih := insertPip_get_self rest k p
      simp [PipMap.insertPip, PipMap.get, h, ih]

theorem insertPip_get_ne : ∀ (m : PipMap) (k k' : Int × Int) (p : Nat), k ≠ k' →
    (m.insertPip k p).get k' = m.get k'
  | [], k, k', p, h => by simp [PipMap.insertPip, PipMap.get, h]
  | (k0, b) :: rest, k, k', p, h => by
    have ih := insertPip_get_ne rest k k' p h
    by_cases h0 : k0 = k
    · subst h0
      simp [PipMap.insertPip, PipMap.get, fun hc => h hc, ih]
    · simp [PipMap.insertPip, PipMap.get, h0, ih]

theorem combineB_nil : ∀ o : Option Bucket, combineB o [] = o := by
  intro o
  cases o <;> simp [combineB]

theorem combineB_cons (o : Option Bucket) (e : Nat × Nat) (l : List (Nat × Nat)) :
    combineB (some (o.getD [] ++ [e])) l = combineB o (e :: l) := by
  cases o <;> cases l <;> simp [combineB]

theorem combineB_none_eq (l : List (Nat × Nat)) :
    combineB none l = if l.isEmpty then none else some l := by
  cases l <;> simp [combineB]

theorem buildStep_pips_n (ctx : Context) (x y xlo xhi ylo yhi : Int) (idx : PipIndex)
    (p : Nat) :
    (buildStep ctx x y xlo xhi ylo yhi idx p).pips_n =
      if pipSelN ctx x y xlo xhi ylo yhi p then idx.pips_n.insertPip (locKey ctx p) p
      else idx.pips_n := by
  unfold buildStep
  by_cases hk : pipKeep ctx x y xlo xhi ylo yhi p = true
  · rw [if_pos hk]
    by_cases hz : dirZero ctx p = true
    · rw [if_pos hz]
      simp [pipSelN, hz]
    · rw [if_neg hz]
      by_cases hx : (ctx.pip_direction p).x < 0
      · simp [pipSelN, hk, hz, hx, locKey, apply_ite PipIndex.pips_n]
      · simp [pipSelN, hk, hz, hx, locKey, apply_ite PipIndex.pips_n]
  · rw [if_neg hk]
    simp [pipSelN, hk]

theorem buildStep_pips_s (ctx : Context) (x y xlo xhi ylo yhi : Int) (idx : PipIndex)
    (p : Nat) :
    (buildStep ctx x y xlo xhi ylo yhi idx p).pips_s =
      if pipSelS ctx x y xlo xhi ylo yhi p then idx.pips_s.insertPip (locKey ctx p) p
      else idx.pips_s := by
  unfold buildStep
  by_cases hk : pipKeep ctx x y xlo xhi ylo yhi p = true
  · rw [if_pos hk]
    by_cases hz : dirZero ctx p = true
    · rw [if_pos hz]
      simp [pipSelS, hz]
    · rw [if_neg hz]
      by_cases hx : (ctx.pip_direction p).x > 0
      · simp [pipSelS, hk, hz, hx, locKey, apply_ite PipIndex.pips_s]
      · simp [pipSelS, hk, hz, hx, locKey, apply_ite PipIndex.pips_s]
  · rw [if_neg hk]
    simp [pipSelS, hk]

theorem buildStep_pips_e (ctx : Context) (x y xlo xhi ylo yhi : Int) (idx : PipIndex)
    (p : Nat) :
    (buildStep ctx x y xlo xhi ylo yhi idx p).pips_e =
      if pipSelE ctx x y xlo xhi ylo yhi p then idx.pips_e.insertPip (locKey ctx p) p
      else idx.pips_e := by
  unfold buildStep
  by_cases hk : pipKeep ctx x y xlo xhi ylo yhi p = true
  · rw [if_pos hk]
    by_cases hz : dirZero ctx p = true
    · rw [if_pos hz]
      simp [pipSelE, hz]
    · rw [if_neg hz]
      by_cases hx : (ctx.pip_direction p).y < 0
      · simp [pipSelE, hk, hz, hx, locKey, apply_ite PipIndex.pips_e]
      · simp [pipSelE, hk, hz, hx, locKey, apply_ite PipIndex.pips_e]
  · rw [if_neg hk]
    simp [pipSelE, hk]

theorem buildStep_pips_w (ctx : Context) (x y xlo xhi ylo yhi : Int) (idx : PipIndex)
    (p : Nat) :
    (buildStep ctx x y xlo xhi ylo yhi idx p).pips_w =
      if pipSelW ctx x y xlo xhi ylo yhi p then idx.pips_w.insertPip (locKey ctx p) p
      else idx.pips_w := by
  unfold buildStep
  by_cases hk : pipKeep ctx x y xlo xhi ylo yhi p = true
  · rw [if_pos hk]
    by_cases hz : dirZero ctx p = true
    · rw [if_pos hz]
      simp [pipSelW, hz]
    · rw [if_neg hz]
      by_cases hx : (ctx.pip_direction p).y > 0
      · simp [pipSelW, hk, hz, hx, locKey, apply_ite PipIndex.pips_w]
      · simp [pipSelW, hk, hz, hx, locKey, apply_ite PipIndex.pips_w]
  · rw [if_neg hk]
    simp [pipSelW, hk]

theorem buildFold_pips_n (ctx : Context) (x y xlo xhi ylo yhi : Int) :
    ∀ (pips : List Nat) (acc : PipIndex) (k : Int × Int),
      ((pips.foldl (buildStep ctx x y xlo xhi ylo yhi) acc).pips_n).get k =
        combineB (acc.pips_n.get k)
          ((pips.filter fun p => pipSelN ctx x y xlo xhi ylo yhi p &&
            decide (locKey ctx p = k)).map fun p => (p, 0))
  | [], acc, k => by simp [combineB_nil]
  | p :: rest, acc, k => by
    have ih := buildFold_pips_n ctx x y xlo xhi ylo yhi rest
      (buildStep ctx x y xlo xhi ylo yhi acc p) k
    simp only [List.foldl_cons, List.filter_cons]
    rw [ih, buildStep_pips_n]
    by_cases hsel : pipSelN ctx x y xlo xhi ylo yhi p = true
    · by_cases hkey : locKey ctx p = k
      · rw [if_pos hsel, hkey, insertPip_get_self]
        have hcond : (pipSelN ctx x y xlo xhi ylo yhi p && decide (k = k)) = true := by
          simp [hsel]
        rw [if_pos hcond, List.map_cons]
        exact combineB_cons _ _ _
      · rw [if_pos hsel, insertPip_get_ne _ _ _ _ hkey]
        simp [hsel, hkey]
    · rw [if_neg hsel]
      simp [hsel]

theorem buildFold_pips_s (ctx : Context) (x y xlo xhi ylo yhi : Int) :
    ∀ (pips : List Nat) (acc : PipIndex) (k : Int × Int),
      ((pips.foldl (buildStep ctx x y xlo xhi ylo yhi) acc).pips_s).get k =
        combineB (acc.pips_s.get k)
          ((pips.filter fun p => pipSelS ctx x y xlo xhi ylo yhi p &&
            decide (locKey ctx p = k)).map fun p => (p, 0))
  | [], acc, k => by simp [combineB_nil]
  | p :: rest, acc, k => by
    have ih := buildFold_pips_s ctx x y xlo xhi ylo yhi rest
      (buildStep ctx x y xlo xhi ylo yhi acc p) k
    simp only [List.foldl_cons, List.filter_cons]
    rw [ih, buildStep_pips_s]
    by_cases hsel : pipSelS ctx x y xlo xhi ylo yhi p = true
    · by_cases hkey : locKey ctx p = k
      · rw [if_pos hsel, hkey, insertPip_get_self]
        have hcond : (pipSelS ctx x y xlo xhi ylo yhi p && decide (k = k)) = true := by
          simp [hsel]
        rw [if_pos hcond, List.map_cons]
        exact combineB_cons _ _ _
      · rw [if_pos hsel, insertPip_get_ne _ _ _ _ hkey]
        simp [hsel, hkey]
    · rw [if_neg hsel]
      simp [hsel]

theorem buildFold_pips_e (ctx : Context) (x y xlo xhi ylo yhi : Int) :
    ∀ (pips : List Nat) (acc : PipIndex) (k : Int × Int),
      ((pips.foldl (buildStep ctx x y xlo xhi ylo yhi) acc).pips_e).get k =
        combineB (acc.pips_e.get k)
          ((pips.filter fun p => pipSelE ctx x y xlo xhi ylo yhi p &&
            decide (locKey ctx p = k)).map fun p => (p, 0))
  | [], acc, k => by simp [combineB_nil]
  | p :: rest, acc, k => by
    have ih := buildFold_pips_e ctx x y xlo xhi ylo yhi rest
      (buildStep ctx x y xlo xhi ylo yhi acc p) k
    simp only [List.foldl_cons, List.filter_cons]
    rw [ih, buildStep_pips_e]
    by_cases hsel : pipSelE ctx x y xlo xhi ylo yhi p = true
    · by_cases hkey : locKey ctx p = k
      · rw [if_pos hsel, hkey, insertPip_get_self]
        have hcond : (pipSelE ctx x y xlo xhi ylo yhi p && decide (k = k)) = true := by
          simp [hsel]
        rw [if_pos hcond, List.map_cons]
        exact combineB_cons _ _ _
      · rw [if_pos hsel, insertPip_get_ne _ _ _ _ hkey]
        simp [hsel, hkey]
    · rw [if_neg hsel]
      simp [hsel]

theorem buildFold_pips_w (ctx : Context) (x y xlo xhi ylo yhi : Int) :
    ∀ (pips : List Nat) (acc : PipIndex) (k : Int × Int),
      ((pips.foldl (buildStep ctx x y xlo xhi ylo yhi) acc).pips_w).get k =
        combineB (acc.pips_w.get k)
          ((pips.filter fun p => pipSelW ctx x y xlo xhi ylo yhi p &&
            decide (locKey ctx p = k)).map fun p => (p, 0))
  | [], acc, k => by simp [combineB_nil]
  | p :: rest, acc, k => by
    have ih := buildFold_pips_w ctx x y xlo xhi ylo yhi rest
      (buildStep ctx x y xlo xhi ylo yhi acc p) k
    simp only [List.foldl_cons, List.filter_cons]
    rw [ih, buildStep_pips_w]
    by_cases hsel : pipSelW ctx x y xlo xhi ylo yhi p = true
    · by_cases hkey : locKey ctx p = k
      · rw [if_pos hsel, hkey, insertPip_get_self]
        have hcond : (pipSelW ctx x y xlo xhi ylo yhi p && decide (k = k)) = true := by
          simp [hsel]
        rw [if_pos hcond, List.map_cons]
        exact combineB_cons _ _ _
      · rw [if_pos hsel, insertPip_get_ne _ _ _ _ hkey]
        simp [hsel, hkey]
    · rw [if_neg hsel]
      simp [hsel]

/-- Claim C7: per grid cell, each directional map of the built pip index
holds exactly the pips that are on a cut line, inside the inclusive bounds,
not internal, and headed that way (x-negative for pips_n, x-positive for
pips_s, y-negative for pips_e, y-positive for pips_w; a pip with both
components non-zero lands in two maps), in input-list order with use-count 0,
and holds no bucket where that selection is empty. -/
theorem pip_index_build_spec (ctx : Context) (pips : List Nat)
    (x y xlo xhi ylo yhi : Int) (k : Int × Int) :
    (buildPipIndex ctx pips x y xlo xhi ylo yhi).pips_n.get k =
      specPipBucket ctx (pipSelN ctx x y xlo xhi ylo yhi) pips k ∧
    (buildPipIndex ctx pips x y xlo xhi ylo yhi).pips_s.get k =
      specPipBucket ctx (pipSelS ctx x y xlo xhi ylo yhi) pips k ∧
    (buildPipIndex ctx pips x y xlo xhi ylo yhi).pips_e.get k =
      specPipBucket ctx (pipSelE ctx x y xlo xhi ylo yhi) pips k ∧
    (buildPipIndex ctx pips x y xlo xhi ylo yhi).pips_w.get k =
      specPipBucket ctx (pipSelW ctx x y xlo xhi ylo yhi) pips k := by
  unfold buildPipIndex specPipBucket
  refine ⟨?_, ?_, ?_, ?_⟩
  · rw [buildFold_pips_n]
    simp only [PipMap.get]
    rw [combineB_none_eq]
  · rw [buildFold_pips_s]
    simp only [PipMap.get]
    rw [combineB_none_eq]
  · rw [buildFold_pips_e]
    simp only [PipMap.get]
    rw [combineB_none_eq]
  · rw [buildFold_pips_w]
    simp only [PipMap.get]
    rw [combineB_none_eq]
theorem setB_get_self : ∀ (m : PipMap) (k : Int × Int) (b : Bucket),
    (m.setB k b).get k = if (m.get k).isSome then some b else none
  | [], k, b => by simp [PipMap.setB, PipMap.get]
  | (k0, b0) :: rest, k, b => by
    by_cases h : k0 = k
    · subst h
      simp [PipMap.setB, PipMap.get]
    · have ih := setB_get_self rest k b
      simp [PipMap.setB, PipMap.get, h, ih]

theorem setB_get_ne : ∀ (m : PipMap) (k k' : Int × Int) (b : Bucket), k ≠ k' →
    (m.setB k b).get k' = m.get k'
  | [], k, k', b, h => by simp [PipMap.setB, PipMap.get]
  | (k0, b0) :: rest, k, k', b, h => by
    have ih := setB_get_ne rest k k' b h
    by_cases h0 : k0 = k
    · subst h0
      simp [PipMap.setB, PipMap.get, fun hc => h hc, ih]
    · simp [PipMap.setB, PipMap.get, h0, ih]

theorem setB_nonempty (m : PipMap) (k : Int × Int) (b : Bucket)
    (hm : MapNonempty m) (hb : b ≠ []) : MapNonempty (m.setB k b) := by
  intro k' b' h
  by_cases hk : k = k'
  · subst hk
    rw [setB_get_self] at h
    by_cases hs : (m.get k).isSome = true
    · rw [if_pos hs] at h
      obtain rfl := Option.some.inj h
      exact hb
    · rw [if_neg hs] at h
      exact Option.noConfusion h
  · rw [setB_get_ne _ _ _ _ hk] at h
    exact hm k' b' h

theorem setB_keys (m : PipMap) (k : Int × Int) (b : Bucket) :
    MapKeysEq m (m.setB k b) := by
  intro k'
  by_cases hk : k = k'
  · subst hk
    rw [setB_get_self]
    by_cases hs : (m.get k).isSome = true
    · rw [if_pos hs, hs]
      rfl
    · rw [if_neg hs]
      rw [Bool.not_eq_true] at hs
      rw [hs]
      rfl
  · rw [setB_get_ne _ _ _ _ hk]

theorem mapKeysEq_refl (m : PipMap) : MapKeysEq m m := fun _ => rfl

theorem idxKeysEq_trans {i j l : PipIndex} (h1 : IdxKeysEq i j) (h2 : IdxKeysEq j l) :
    IdxKeysEq i l :=
  ⟨fun k => (h1.1 k).trans (h2.1 k), fun k => (h1.2.1 k).trans (h2.2.1 k),
   fun k => (h1.2.2.1 k).trans (h2.2.2.1 k), fun k => (h1.2.2.2 k).trans (h2.2.2.2 k)⟩

theorem find_best_pip_none_iff (ctx : Context) (b : Bucket) (sw kw : Nat) :
    find_best_pip ctx b sw kw = none ↔ b = [] := by
  cases b <;> simp [find_best_pip]

theorem find_best_pip_some_ne (ctx : Context) (b : Bucket) (sw kw : Nat)
    (pb : Nat × Bucket) (h : find_best_pip ctx b sw kw = some pb) : pb.2 ≠ [] := by
  cases b with
  | nil => simp [find_best_pip] at h
  | cons e rest =>
    simp only [find_best_pip, Option.some.injEq] at h
    subst h
    intro hc
    have := congrArg List.length hc
    simp [List.length_set] at this

theorem combineB_none_some (l : List (Nat × Nat)) (b : Bucket)
    (h : combineB none l = some b) : b ≠ [] := by
  rw [combineB_none_eq] at h
  by_cases hl : l.isEmpty = true
  · rw [if_pos hl] at h
    exact Option.noConfusion h
  · rw [if_neg hl] at h
    obtain rfl := Option.some.inj h
    intro hc
    subst hc
    simp at hl

theorem built_nonempty (ctx : Context) (pips : List Nat) (x y xlo xhi ylo yhi : Int) :
    IdxNonempty (buildPipIndex ctx pips x y xlo xhi ylo yhi) := by
  refine ⟨?_, ?_, ?_, ?_⟩ <;> intro k b hb
  · unfold buildPipIndex at hb
    rw [buildFold_pips_n] at hb
    exact combineB_none_some _ _ hb
  · unfold buildPipIndex at hb
    rw [buildFold_pips_e] at hb
    exact combineB_none_some _ _ hb
  · unfold buildPipIndex at hb
    rw [buildFold_pips_s] at hb
    exact combineB_none_some _ _ hb
  · unfold buildPipIndex at hb
    rw [buildFold_pips_w] at hb
    exact combineB_none_some _ _ hb
theorem updEW_pips_s (x y : Int) (a : Arc) (idx : PipIndex) (m : Int × Int)
    (b : Bucket) : (updEW x y a idx m b).pips_s = idx.pips_s := by
  unfold updEW
  split <;> rfl

theorem updEW_pips_n (x y : Int) (a : Arc) (idx : PipIndex) (m : Int × Int)
    (b : Bucket) : (updEW x y a idx m b).pips_n = idx.pips_n := by
  unfold updEW
  split <;> rfl

theorem getNS_updEW (x y : Int) (a : Arc) (idx : PipIndex) (m : Int × Int)
    (b : Bucket) (mid : Int × Int) :
    getNS x y a (updEW x y a idx m b) mid = getNS x y a idx mid := by
  unfold getNS
  rw [updEW_pips_s, updEW_pips_n]

theorem updNS_inv (x y : Int) (a : Arc) (idx : PipIndex) (mid : Int × Int)
    (b' : Bucket) (hne : IdxNonempty idx) (hb : b' ≠ []) :
    IdxNonempty (updNS x y a idx mid b') ∧ IdxKeysEq idx (updNS x y a idx mid b') := by
  obtain ⟨hn, he, hs, hw⟩ := hne
  unfold updNS
  by_cases hN : arcSrcNorth x y a = true
  · rw [if_pos hN]
    exact ⟨⟨hn, he, setB_nonempty _ _ _ hs hb, hw⟩,
      mapKeysEq_refl _, mapKeysEq_refl _, setB_keys _ _ _, mapKeysEq_refl _⟩
  · rw [if_neg hN]
    exact ⟨⟨setB_nonempty _ _ _ hn hb, he, hs, hw⟩,
      setB_keys _ _ _, mapKeysEq_refl _, mapKeysEq_refl _, mapKeysEq_refl _⟩

theorem updEW_inv (x y : Int) (a : Arc) (idx : PipIndex) (mid : Int × Int)
    (b' : Bucket) (hne : IdxNonempty idx) (hb : b' ≠ []) :
    IdxNonempty (updEW x y a idx mid b') ∧ IdxKeysEq idx (updEW x y a idx mid b') := by
  obtain ⟨hn, he, hs, hw⟩ := hne
  unfold updEW
  by_cases hE : arcSrcEast x y a = true
  · rw [if_pos hE]
    exact ⟨⟨hn, he, hs, setB_nonempty _ _ _ hw hb⟩,
      mapKeysEq_refl _, mapKeysEq_refl _, mapKeysEq_refl _, setB_keys _ _ _⟩
  · rw [if_neg hE]
    exact ⟨⟨hn, setB_nonempty _ _ _ he hb, hs, hw⟩,
      mapKeysEq_refl _, setB_keys _ _ _, mapKeysEq_refl _, mapKeysEq_refl _⟩

theorem getNS_nonempty (x y : Int) (a : Arc) (idx : PipIndex) (mid : Int × Int)
    (b : Bucket) (hne : IdxNonempty idx) (h : getNS x y a idx mid = some b) :
    b ≠ [] := by
  unfold getNS at h
  by_cases hN : arcSrcNorth x y a = true
  · rw [if_pos hN] at h
    exact hne.2.2.1 _ _ h
  · rw [if_neg hN] at h
    exact hne.1 _ _ h

theorem getEW_nonempty (x y : Int) (a : Arc) (idx : PipIndex) (mid : Int × Int)
    (b : Bucket) (hne : IdxNonempty idx) (h : getEW x y a idx mid = some b) :
    b ≠ [] := by
  unfold getEW at h
  by_cases hE : arcSrcEast x y a = true
  · rw [if_pos hE] at h
    exact hne.2.2.2 _ _ h
  · rw [if_neg hE] at h
    exact hne.2.1 _ _ h

theorem getNS_isSome_congr (x y : Int) (a : Arc) {i i' : PipIndex}
    (h : IdxKeysEq i i') (mid : Int × Int) :
    (getNS x y a i mid).isSome = (getNS x y a i' mid).isSome := by
  unfold getNS
  by_cases hN : arcSrcNorth x y a = true
  · rw [if_pos hN, if_pos hN]
    exact h.2.2.1 mid
  · rw [if_neg hN, if_neg hN]
    exact h.1 mid

theorem getEW_isSome_congr (x y : Int) (a : Arc) {i i' : PipIndex}
    (h : IdxKeysEq i i') (mid : Int × Int) :
    (getEW x y a i mid).isSome = (getEW x y a i' mid).isSome := by
  unfold getEW
  by_cases hE : arcSrcEast x y a = true
  · rw [if_pos hE, if_pos hE]
    exact h.2.2.2 mid
  · rw [if_neg hE, if_neg hE]
    exact h.2.1 mid

theorem arcBucketsPresent_congr (ctx : Context) (x y : Int) {i i' : PipIndex}
    (h : IdxKeysEq i i') (a : Arc) :
    arcBucketsPresent ctx x y i a = arcBucketsPresent ctx x y i' a := by
  unfold arcBucketsPresent
  simp only [getNS_isSome_congr x y a h, getEW_isSome_congr x y a h]
theorem processArc_none_iff (ctx : Context) (x y : Int) (idx : PipIndex) (a : Arc)
    (hne : IdxNonempty idx) :
    processArc ctx x y idx a = none ↔ arcBucketsPresent ctx x y idx a = false := by
  unfold processArc arcBucketsPresent
  by_cases h1 : arcSameQuad x y a = true
  · rw [if_pos h1, if_pos h1]
    simp
  · rw [if_neg h1, if_neg h1]
    by_cases h2 : arcCrossNS x y a = true
    · rw [if_pos h2, if_pos h2]
      cases hget : getNS x y a idx (vertMiddle ctx x a) with
      | none => simp [hget]
      | some b =>
        have hb := getNS_nonempty x y a idx _ b hne hget
        cases hfb : find_best_pip ctx b a.source_wire a.sink_wire with
        | none => exact absurd ((find_best_pip_none_iff ctx b _ _).mp hfb) hb
        | some pb => simp [hget, hfb]
    · rw [if_neg h2, if_neg h2]
      by_cases h3 : arcCrossEW x y a = true
      · rw [if_pos h3, if_pos h3]
        cases hget : getEW x y a idx (horizMiddle ctx y a) with
        | none => simp [hget]
        | some b =>
          have hb := getEW_nonempty x y a idx _ b hne hget
          cases hfb : find_best_pip ctx b a.source_wire a.sink_wire with
          | none => exact absurd ((find_best_pip_none_iff ctx b _ _).mp hfb) hb
          | some pb => simp [hget, hfb]
      · rw [if_neg h3, if_neg h3]
        cases hg1 : getEW x y a idx (diagMiddleH ctx x a) with
        | none => simp [hg1]
        | some b1 =>
          have hb1 := getEW_nonempty x y a idx _ b1 hne hg1
          cases hfb1 : find_best_pip ctx b1 a.source_wire a.sink_wire with
          | none => exact absurd ((find_best_pip_none_iff ctx b1 _ _).mp hfb1) hb1
          | some pb1 =>
            cases hg2 : getNS x y a idx (diagMiddleV ctx y a) with
            | none => simp [hg1, hfb1, getNS_updEW, hg2]
            | some b2 =>
              have hb2 := getNS_nonempty x y a idx _ b2 hne hg2
              cases hfb2 : find_best_pip ctx b2 a.source_wire a.sink_wire with
              | none => exact absurd ((find_best_pip_none_iff ctx b2 _ _).mp hfb2) hb2
              | some pb2 => simp [hg1, hfb1, getNS_updEW, hg2, hfb2]

theorem processArc_some_inv (ctx : Context) (x y : Int) (idx : PipIndex) (a : Arc)
    (l : List (Segment × Arc)) (idx' : PipIndex) (hne : IdxNonempty idx)
    (h : processArc ctx x y idx a = some (l, idx')) :
    IdxNonempty idx' ∧ IdxKeysEq idx idx' := by
  unfold processArc at h
  by_cases h1 : arcSameQuad x y a = true
  · rw [if_pos h1] at h
    simp only [Option.some.injEq, Prod.mk.injEq] at h
    obtain ⟨-, rfl⟩ := h
    exact ⟨hne, mapKeysEq_refl _, mapKeysEq_refl _, mapKeysEq_refl _, mapKeysEq_refl _⟩
  · rw [if_neg h1] at h
    by_cases h2 : arcCrossNS x y a = true
    · rw [if_pos h2, Option.bind_eq_some] at h
      obtain ⟨b, hget, h⟩ := h
      rw [Option.map_eq_some'] at h
      obtain ⟨pb, hfb, h⟩ := h
      rw [Prod.mk.injEq] at h
      obtain ⟨-, rfl⟩ := h
      exact updNS_inv x y a idx _ pb.2 hne (find_best_pip_some_ne ctx b _ _ pb hfb)
    · rw [if_neg h2] at h
      by_cases h3 : arcCrossEW x y a = true
      · rw [if_pos h3, Option.bind_eq_some] at h
        obtain ⟨b, hget, h⟩ := h
        rw [Option.map_eq_some'] at h
        obtain ⟨pb, hfb, h⟩ := h
        rw [Prod.mk.injEq] at h
        obtain ⟨-, rfl⟩ := h
        exact updEW_inv x y a idx _ pb.2 hne (find_best_pip_some_ne ctx b _ _ pb hfb)
      · rw [if_neg h3, Option.bind_eq_some] at h
        obtain ⟨b1, hg1, h⟩ := h
        rw [Option.bind_eq_some] at h
        obtain ⟨pb1, hfb1, h⟩ := h
        rw [Option.bind_eq_some] at h
        obtain ⟨b2, hg2, h⟩ := h
        rw [Option.map_eq_some'] at h
        obtain ⟨pb2, hfb2, h⟩ := h
        rw [Prod.mk.injEq] at h
        obtain ⟨-, rfl⟩ := h
        have e1 := updEW_inv x y a idx (diagMiddleH ctx x a) pb1.2 hne
          (find_best_pip_some_ne ctx b1 _ _ pb1 hfb1)
        have e2 := updNS_inv x y a (updEW x y a idx (diagMiddleH ctx x a) pb1.2)
          (diagMiddleV ctx y a) pb2.2 e1.1
          (find_best_pip_some_ne ctx b2 _ _ pb2 hfb2)
        exact ⟨e2.1, idxKeysEq_trans e1.2 e2.2⟩
theorem partitionArcs_none_iff (ctx : Context) (x y : Int) :
    ∀ (arcs : List Arc) (idx : PipIndex), IdxNonempty idx →
      (partitionArcs ctx x y idx arcs = none ↔
        ∃ a ∈ arcs, arcBucketsPresent ctx x y idx a = false)
  | [], idx, hne => by simp [partitionArcs]
  | a :: rest, idx, hne => by
    unfold partitionArcs
    cases hp : processArc ctx x y idx a with
    | none =>
      simp only [Option.none_bind]
      constructor
      · intro _
        exact ⟨a, List.mem_cons_self a rest, (processArc_none_iff ctx x y idx a hne).mp hp⟩
      · intro _
        trivial
    | some li =>
      have hinv := processArc_some_inv ctx x y idx a li.1 li.2 hne (by rw [hp])
      obtain ⟨hne', hkeys⟩ := hinv
      have ih := partitionArcs_none_iff ctx x y rest li.2 hne'
      have hpresa : arcBucketsPresent ctx x y idx a = true := by
        by_contra hc
        rw [Bool.not_eq_true] at hc
        rw [← processArc_none_iff ctx x y idx a hne] at hc
        rw [hp] at hc
        exact Option.noConfusion hc
      simp only [Option.some_bind]
      rw [Option.map_eq_none', ih]
      constructor
      · rintro ⟨b, hb, hpres⟩
        refine ⟨b, List.mem_cons_of_mem a hb, ?_⟩
        rw [arcBucketsPresent_congr ctx x y hkeys]
        exact hpres
      · rintro ⟨b, hb, hpres⟩
        rcases List.mem_cons.mp hb with rfl | hb'
        · rw [hpresa] at hpres
          exact Bool.noConfusion hpres
        · refine ⟨b, hb', ?_⟩
          rw [← arcBucketsPresent_congr ctx x y hkeys]
          exact hpres

/-- Claim C6: a partition pass aborts (the Rust code panics on a missing
bucket lookup) if and only if some arc needs a (clamped crossing cell,
direction) bucket that is absent from the corresponding directional map of
the built pip index; buckets, once present, are non-empty by construction, so
when every required bucket exists the pass returns normally for all arcs. -/
theorem partition_abort_iff (ctx : Context) (arcs : List Arc) (pips : List Nat)
    (x y xlo xhi ylo yhi : Int) :
    partition ctx arcs pips x y xlo xhi ylo yhi = none ↔
      ∃ a ∈ arcs, arcBucketsPresent ctx x y
        (buildPipIndex ctx pips x y xlo xhi ylo yhi) a = false := by
  simp only [partition]
  rw [Option.map_eq_none']
  exact partitionArcs_none_iff ctx x y arcs _
    (built_nonempty ctx pips x y xlo xhi ylo yhi)

theorem fppFinal_ne_diverge (ctx : Context) (arcs : List Arc) (pips : List Nat)
    (xlo xhi ylo yhi x y : Int) :
    fppFinal ctx arcs pips xlo xhi ylo yhi x y ≠ FppOut.diverge := by
  unfold fppFinal
  cases partition ctx arcs pips x y xlo xhi ylo yhi <;> simp

theorem fppFinal_passes (ctx : Context) (arcs : List Arc) (pips : List Nat)
    (xlo xhi ylo yhi x y : Int) :
    (fppFinal ctx arcs pips xlo xhi ylo yhi x y).passes = 1 := by
  unfold fppFinal
  cases partition ctx arcs pips x y xlo xhi ylo yhi <;> simp [FppOut.passes]

theorem fppLoop_zero_step (ctx : Context) (arcs : List Arc) (pips : List Nat)
    (xlo xhi ylo yhi : Int) (fuel : Nat) (x y yd : Int) :
    fppLoop ctx arcs pips xlo xhi ylo yhi fuel x y 0 yd =
      fppFinal ctx arcs pips xlo xhi ylo yhi x y := by
  cases fuel <;> simp [fppLoop]

theorem fdiv_two_toNat (d : Int) (hd : 0 ≤ d) :
    (d.fdiv 2).toNat = d.toNat / 2 ∧ 0 ≤ d.fdiv 2 := by
  rw [Int.fdiv_eq_ediv _ (by norm_num)]
  omega

theorem size_half_lt (n : Nat) (hn : 0 < n) : (n / 2).size < n.size := by
  have h1 : n < 2 ^ n.size := Nat.lt_size_self n
  have hsz : 0 < n.size := Nat.size_pos.mpr hn
  have hpow : 2 ^ (n.size - 1) * 2 = 2 ^ n.size := by
    rw [← Nat.pow_succ]
    congr 1
    omega
  have h2 : n / 2 < 2 ^ (n.size - 1) := by
    rw [Nat.div_lt_iff_lt_mul (by norm_num), hpow]
    exact h1
  have h3 := Nat.size_le.mpr h2
  omega

theorem fppLoop_fuel_bound (ctx : Context) (arcs : List Arc) (pips : List Nat)
    (xlo xhi ylo yhi : Int) :
    ∀ (fuel : Nat) (x y xd yd : Int), 0 ≤ xd → xd.toNat ≤ fuel →
      fppLoop ctx arcs pips xlo xhi ylo yhi fuel x y xd yd ≠ FppOut.diverge ∧
      (fppLoop ctx arcs pips xlo xhi ylo yhi fuel x y xd yd).passes ≤
        xd.toNat.size + 1 := by
  intro fuel
  induction fuel with
  | zero =>
    intro x y xd yd hxd hle
    have hz : xd = 0 := by omega
    subst hz
    rw [fppLoop_zero_step]
    refine ⟨fppFinal_ne_diverge _ _ _ _ _ _ _ _ _, ?_⟩
    rw [fppFinal_passes]
    simp
  | succ fuel ih =>
    intro x y xd yd hxd hle
    by_cases hz : xd = 0
    · subst hz
      rw [fppLoop_zero_step]
      refine ⟨fppFinal_ne_diverge _ _ _ _ _ _ _ _ _, ?_⟩
      rw [fppFinal_passes]
      simp
    · simp only [fppLoop]
      rw [if_neg hz]
      cases hpart : partition ctx arcs pips x y xlo xhi ylo yhi with
      | none => simp [FppOut.passes]
      | some q =>
        simp only []
        by_cases hdist : distortionQ q ≤ 5
        · rw [if_pos hdist]
          simp [FppOut.passes]
        · rw [if_neg hdist]
          have hn : 0 < xd.toNat := by omega
          obtain ⟨hfd, hfd0⟩ := fdiv_two_toNat xd hxd
          have hsz := size_half_lt xd.toNat hn
          have hle' : (xd.fdiv 2).toNat ≤ fuel := by
            rw [hfd]
            have h4 : xd.toNat / 2 < xd.toNat := Nat.div_lt_self hn (by norm_num)
            omega
          have ihx := ih (x + (if q.ne.length + q.nw.length < q.se.length + q.sw.length
              then xd else if q.se.length + q.sw.length < q.ne.length + q.nw.length
              then -xd else 0))
            (y + (if q.ne.length + q.se.length < q.nw.length + q.sw.length
              then yd else if q.nw.length + q.sw.length < q.ne.length + q.se.length
              then -yd else 0)) (xd.fdiv 2) (yd.fdiv 2) hfd0 hle'
          cases hrec : fppLoop ctx arcs pips xlo xhi ylo yhi fuel
              (x + (if q.ne.length + q.nw.length < q.se.length + q.sw.length
                then xd else if q.se.length + q.sw.length < q.ne.length + q.nw.length
                then -xd else 0))
              (y + (if q.ne.length + q.se.length < q.nw.length + q.sw.length
                then yd else if q.nw.length + q.sw.length < q.ne.length + q.se.length
                then -yd else 0)) (xd.fdiv 2) (yd.fdiv 2) with
          | diverge =>
            rw [hrec] at ihx
            exact absurd rfl ihx.1
          | aborted n =>
            rw [hrec] at ihx
            simp only [FppOut.passes] at ihx
            rw [hfd] at ihx
            simp only [FppOut.passes]
            constructor
            · simp
            · omega
          | ok a b qq n =>
            rw [hrec] at ihx
            simp only [FppOut.passes] at ihx
            rw [hfd] at ihx
            simp only [FppOut.passes]
            constructor
            · simp
            · omega

/-- Claim C4: for non-inverted bounds the balance search terminates, and the
number of partition passes it runs (loop passes plus the final unconditional
one) is at most ceil(log2(max(x span, y span))) + 1. -/
theorem find_partition_point_terminates (ctx : Context) (arcs : List Arc)
    (pips : List Nat) (x_start x_finish y_start y_finish : Int)
    (hx : x_start ≤ x_finish) (hy : y_start ≤ y_finish) :
    find_partition_point ctx arcs pips x_start x_finish y_start y_finish ≠
      FppOut.diverge ∧
    (find_partition_point ctx arcs pips x_start x_finish y_start y_finish).passes ≤
      Nat.clog 2 (max (x_finish - x_start).toNat (y_finish - y_start).toNat) + 1 := by
  simp only [find_partition_point]
  have hd0 : 0 ≤ x_finish - x_start := by omega
  have hxd0 : 0 ≤ (x_finish - x_start).tdiv 4 := Int.tdiv_nonneg hd0 (by norm_num)
  have hmain := fppLoop_fuel_bound ctx arcs pips x_start x_finish y_start y_finish
    (((x_finish - x_start).tdiv 4).toNat + 1)
    ((x_finish - x_start).tdiv 2 + x_start) ((y_finish - y_start).tdiv 2 + y_start)
    ((x_finish - x_start).tdiv 4) ((y_finish - y_start).tdiv 4) hxd0 (Nat.le_succ _)
  refine ⟨hmain.1, le_trans hmain.2 ?_⟩
  have h1 : ((x_finish - x_start).tdiv 4).toNat = (x_finish - x_start).toNat / 4 := by
    obtain ⟨n, hn⟩ := Int.eq_ofNat_of_zero_le hd0
    rw [hn, show ((4 : Int)) = ((4 : Nat) : Int) from rfl, ← Int.ofNat_tdiv]
    simp
    omega
  rw [h1]
  have hdm : (x_finish - x_start).toNat ≤
      max (x_finish - x_start).toNat (y_finish - y_start).toNat := le_max_left _ _
  by_cases hq : (x_finish - x_start).toNat / 4 = 0
  · rw [hq]
    simp
  · have hpos : 0 < (x_finish - x_start).toNat := by omega
    have hlt : (x_finish - x_start).toNat / 4 < (x_finish - x_start).toNat :=
      Nat.div_lt_self hpos (by norm_num)
    have hle2 : (x_finish - x_start).toNat ≤
        2 ^ Nat.clog 2 (max (x_finish - x_start).toNat (y_finish - y_start).toNat) :=
      le_trans hdm (Nat.le_pow_clog (by norm_num) _)
    have := Nat.size_le.mpr (lt_of_lt_of_le hlt hle2)
    omega

/-- Claim C5: whenever an iteration of the balance loop still has fuel and a
non-zero x step, and its partition pass yields distortion at most 5, the loop
returns the current (x, y) with exactly that pass's four lists after that
single pass, adjusting nothing further. -/
theorem fppLoop_early_exit (ctx : Context) (arcs : List Arc) (pips : List Nat)
    (xlo xhi ylo yhi : Int) (fuel : Nat) (x y xd yd : Int) (q : Quad)
    (hxd : xd ≠ 0)
    (hp : partition ctx arcs pips x y xlo xhi ylo yhi = some q)
    (hd : distortionQ q ≤ 5) :
    fppLoop ctx arcs pips xlo xhi ylo yhi (fuel + 1) x y xd yd =
      FppOut.ok x y q 1 := by
  simp only [fppLoop]
  rw [if_neg hxd]
  simp only [hp]
  rw [if_pos hd]

/-- Claim C10: the loop guard tests only the x step, so whenever the x span
is below 4 (making the initial x step zero), find_partition_point runs
exactly one partition pass and returns its result unconditionally - the
distortion test is never evaluated - regardless of the y span. -/
theorem find_partition_point_single_pass (ctx : Context) (arcs : List Arc)
    (pips : List Nat) (x_start x_finish y_start y_finish : Int)
    (h0 : 0 ≤ x_finish - x_start) (h4 : x_finish - x_start < 4) :
    find_partition_point ctx arcs pips x_start x_finish y_start y_finish =
      fppFinal ctx arcs pips x_start x_finish y_start y_finish
        ((x_finish - x_start).tdiv 2 + x_start)
        ((y_finish - y_start).tdiv 2 + y_start) ∧
    (find_partition_point ctx arcs pips x_start x_finish y_start y_finish).passes = 1 := by
  have hz : (x_finish - x_start).tdiv 4 = 0 := by
    obtain ⟨n, hn⟩ := Int.eq_ofNat_of_zero_le h0
    rw [hn] at h4 ⊢
    rw [show ((4 : Int)) = ((4 : Nat) : Int) from rfl, ← Int.ofNat_tdiv]
    have hn4 : n < 4 := by exact_mod_cast h4
    simp [Nat.div_eq_of_lt hn4]
  simp only [find_partition_point]
  rw [hz, fppLoop_zero_step]
  exact ⟨rfl, fppFinal_passes _ _ _ _ _ _ _ _ _⟩

/-- Claim C4 witness: concrete 16 x 16 bounds with the four-quadrant arcs. -/
theorem find_partition_point_terminates_witness :
    find_partition_point ctxW arcsQuadW [] 0 15 0 15 ≠ FppOut.diverge ∧
    (find_partition_point ctxW arcsQuadW [] 0 15 0 15).passes ≤
      Nat.clog 2 (max ((15 : Int) - 0).toNat ((15 : Int) - 0).toNat) + 1 :=
  find_partition_point_terminates ctxW arcsQuadW [] 0 15 0 15 (by norm_num) (by norm_num)

/-- Claim C5 witness: the balanced four-quadrant scenario exits on its first
pass at (7, 7) with one pass recorded. -/
theorem fppLoop_early_exit_witness :
    fppLoop ctxW arcsQuadW [] 0 15 0 15 4 7 7 3 3 = FppOut.ok 7 7 quadQW 1 :=
  fppLoop_early_exit ctxW arcsQuadW [] 0 15 0 15 3 7 7 3 3 quadQW (by decide)
    (by decide) (by norm_num [distortionQ, quadQW])

/-- Claim C10 witness: an x span of 2 with a y span of 15 runs exactly one
pass. -/
theorem find_partition_point_single_pass_witness :
    find_partition_point ctxW arcsQuadW [] 0 2 0 15 =
      fppFinal ctxW arcsQuadW [] 0 2 0 15 (((2 : Int) - 0).tdiv 2 + 0)
        (((15 : Int) - 0).tdiv 2 + 0) ∧
    (find_partition_point ctxW arcsQuadW [] 0 2 0 15).passes = 1 :=
  find_partition_point_single_pass ctxW arcsQuadW [] 0 2 0 15 (by norm_num) (by norm_num)
